/-
Verification of the core schema-to-relational mapping engine of
xsd2sqlschemaerd.py: identifier normalization, the type registry,
column/table accumulation, foreign-key direction inference, relationship
bookkeeping, and the dependency-graph resolver (cycle breaking and
topological ordering).

Python strings are modelled as Lean `String`; `None`-able values as
`Option`; Python dicts carrying program state as functions into `Option`;
Python sets as `Finset String`; exceptions as `Except String`.
Global mutable dictionaries (NAMESPACE_DICT, TABLE_COLUMNS,
HASH_TABLE_TABLES_GENERATED, USER_TYPES) become explicit parameters and
explicitly threaded state.
-/

import Mathlib

set_option maxHeartbeats 1000000

/-! Part: Python string primitives used by the source -/

/-- Whitespace as recognised by Python's `str.lstrip()` (ASCII range). -/
def isPySpace (c : Char) : Bool :=
  c = ' ' || c = '\t' || c = '\n' || c = '\r' || c = '\x0b' || c = '\x0c'

/-- Python `s.lstrip()`. -/
def pyLstrip (s : String) : String :=
  ⟨s.data.dropWhile isPySpace⟩

/-- Single-character substitution, as done by `replChar` below. -/
def replChar (a b c : Char) : Char :=
  if c = a then b else c

/-- Python `s.replace(a, b)` for single characters `a`, `b`. -/
def pyReplaceChar (s : String) (a b : Char) : String :=
  ⟨s.data.map (replChar a b)⟩

/-- Python `s.lower()` (ASCII). -/
def pyLower (s : String) : String :=
  ⟨s.data.map Char.toLower⟩

/-- Python `s.replace(":", "")`: remove every colon. -/
def stripColons (s : String) : String :=
  ⟨s.data.filter (fun c => !(c = ':'))⟩

theorem str_data_append (a b : String) : (a ++ b).data = a.data ++ b.data := by
  cases a; cases b; rfl

/-! Part: The namespace table (NAMESPACE_DICT), modelled as an association list
with the unique-key property of the Python dict it mirrors. -/

def NsDict := List (String × String)

/-- Python `d.get(k)` on an association-list dict. -/
def lookupAssoc {α : Type} (l : List (String × α)) (k : String) : Option α :=
  match l.find? (fun p => p.1 == k) with
  | some p => some p.2
  | none => none

/-- Python `value.split(":", 1)` when a colon is present: the text before the
first colon and the text after it. `none` when no colon occurs. -/
def splitColonOnce : List Char → Option (List Char × List Char)
  | [] => none
  | c :: rest =>
    if c = ':' then some ([], rest)
    else (splitColonOnce rest).map (fun p => (c :: p.1, p.2))

/-- Embedding of `process_prefix`, the namespace-prefix rewriting step of
the identifier normalizer. -/
def process_prefix_py (value : String) (namespace_dict : NsDict) (ns : String) : String :=
  match splitColonOnce value.data with
  | some (pfxL, restL) =>
    let pfx : String := ⟨pfxL⟩
    let rest : String := ⟨restL⟩
    let pfx_two_points := pfx ++ ":"
    if pfx_two_points ∈ namespace_dict.map Prod.snd then
      pfx ++ "_" ++ rest
    else
      stripColons ((lookupAssoc namespace_dict ns).getD "") ++ "_" ++ rest
  | none =>
    stripColons ((lookupAssoc namespace_dict ns).getD "") ++ "_" ++ value

/-- Embedding of `sql_normalize(string, ns)`; `NAMESPACE_DICT` is the explicit
first argument. A `None` argument is the empty string (`if not string`). -/
def sql_normalize (nsDict : NsDict) (string : String) (ns : String) : String :=
  let s1 := pyLstrip string
  let s2 := pyReplaceChar s1 '-' '_'
  let s3 := pyReplaceChar s2 '.' '_'
  let s4 := pyReplaceChar s3 ' ' '_'
  if nsDict.length > 1 ∧ pyLstrip ns ≠ "" ∧ pyLstrip s4 ≠ "" then
    process_prefix_py s4 nsDict ns
  else
    s4

/-! Part: Idempotence analysis of the normalizer (claim C6) -/

/-- The fused character substitution applied by `sql_normalize`. -/
def normChar (c : Char) : Char :=
  replChar ' ' '_' (replChar '.' '_' (replChar '-' '_' c))

theorem normChar_idem (c : Char) : normChar (normChar c) = normChar c := by
  unfold normChar replChar
  by_cases h1 : c = '-' <;> by_cases h2 : c = '.' <;> by_cases h3 : c = ' ' <;>
    simp [h1, h2, h3]

theorem normChar_not_space (c : Char) (h : ¬ isPySpace c = true) :
    ¬ isPySpace (normChar c) = true := by
  unfold normChar replChar
  by_cases h1 : c = '-' <;> by_cases h2 : c = '.' <;> by_cases h3 : c = ' ' <;>
    simp_all [isPySpace]

theorem dropWhile_map_normChar_dropWhile (l : List Char) :
    ((l.dropWhile isPySpace).map normChar).dropWhile isPySpace
      = (l.dropWhile isPySpace).map normChar := by
  induction l with
  | nil => rfl
  | cons c t ih =>
    by_cases h : isPySpace c = true
    · simpa [List.dropWhile_cons, h] using ih
    · simp [List.dropWhile_cons, h, normChar_not_space c h]

theorem map_normChar_idem (l : List Char) :
    (l.map normChar).map normChar = l.map normChar := by
  induction l with
  | nil => rfl
  | cons c t ih => simp [normChar_idem c, ih]

/-- The pure character pipeline of `sql_normalize` as one function. -/
theorem sql_normalize_single_ns (nsDict : NsDict) (x ns : String)
    (h : ¬ nsDict.length > 1) :
    sql_normalize nsDict x ns
      = ⟨(x.data.dropWhile isPySpace).map normChar⟩ := by
  unfold sql_normalize pyLstrip pyReplaceChar
  rw [if_neg (by intro hc; exact h hc.1)]
  simp only [List.map_map]
  rfl

/-- Claim C6, counterexample to stability in the multi-namespace case: with
two active namespaces the prefix-rewriting step prepends the canonical
prefix on every application, so normalizing twice differs from normalizing
once already on the plain name "abc". -/
theorem sql_normalize_not_idempotent_multi_ns :
    sql_normalize [("u1", "xs:"), ("u2", "ds:")]
        (sql_normalize [("u1", "xs:"), ("u2", "ds:")] "abc" "u1") "u1"
      ≠ sql_normalize [("u1", "xs:"), ("u2", "ds:")] "abc" "u1" := by
  decide

/-- Claim C6 (amended): when at most one namespace is active — so the
prefix-rewriting step is skipped — `sql_normalize` is idempotent for every
input string. -/
theorem sql_normalize_idempotent_single_ns (nsDict : NsDict) (x ns : String)
    (h : nsDict.length ≤ 1) :
    sql_normalize nsDict (sql_normalize nsDict x ns) ns
      = sql_normalize nsDict x ns := by
  have hgt : ¬ nsDict.length > 1 := by omega
  rw [sql_normalize_single_ns nsDict x ns hgt,
      sql_normalize_single_ns nsDict _ ns hgt]
  apply congrArg
  show ((⟨(x.data.dropWhile isPySpace).map normChar⟩ : String).data.dropWhile
      isPySpace).map normChar = (x.data.dropWhile isPySpace).map normChar
  show (((x.data.dropWhile isPySpace).map normChar).dropWhile isPySpace).map
      normChar = (x.data.dropWhile isPySpace).map normChar
  rw [dropWhile_map_normChar_dropWhile, map_normChar_idem]

/-- Witness for the amended C6 theorem at a concrete input. -/
theorem sql_normalize_idempotent_single_ns_witness :
    ([("u1", "xs:")] : NsDict).length ≤ 1 ∧
      sql_normalize [("u1", "xs:")]
          (sql_normalize [("u1", "xs:")] "a-b.c d" "u1") "u1"
        = sql_normalize [("u1", "xs:")] "a-b.c d" "u1" :=
  ⟨by decide,
   sql_normalize_idempotent_single_ns [("u1", "xs:")] "a-b.c d" "u1" (by decide)⟩

/-! Part: The type registry: `SDict` and `DEFX2SQLSERVER` (claim C7)

`SDict.__getitem__` computes `dict.__getitem__(self, item) % self`; `get`
catches only `KeyError`. A stored value of `None` therefore slips past the
handler and `None % self` raises an uncaught `TypeError`. Every string
value in `DEFX2SQLSERVER` is `%`-free, so `% self` is the identity on the
values that do format (proved below in `defx2sqlserver_values_percent_free`). -/

/-- The stored table of SQL Server type translations, values `none` marking
unsupported categories, exactly as written in the source. -/
def DEFX2SQLSERVER : List (String × Option String) :=
  [("string", some "nvarchar(max)"),
   ("boolean", some "bit"),
   ("decimal", some "decimal(18,2)"),
   ("float", some "float"),
   ("double", some "float"),
   ("duration", some "time"),
   ("dateTime", some "datetime2"),
   ("time", some "time"),
   ("date", some "date"),
   ("gYearMonth", some "datetime2"),
   ("gYear", some "datetime2"),
   ("gMonthDay", some "datetime2"),
   ("gDay", some "datetime2"),
   ("gMonth", some "datetime2"),
   ("hexBinary", some "varbinary(max)"),
   ("base64Binary", some "varbinary(max)"),
   ("anyURI", some "nvarchar(max)"),
   ("QName", none),
   ("NOTATION", none),
   ("normalizedString", some "nvarchar(max)"),
   ("token", some "nvarchar(max)"),
   ("language", some "nvarchar(max)"),
   ("NMTOKEN", none),
   ("NMTOKENS", none),
   ("Name", some "nvarchar(max)"),
   ("NCName", some "nvarchar(max)"),
   ("ID", none),
   ("IDREF", none),
   ("IDREFS", none),
   ("ENTITY", none),
   ("ENTITIES", none),
   ("integer", some "bigint"),
   ("nonPositiveInteger", some "bigint"),
   ("negativeInteger", some "bigint"),
   ("long", some "bigint"),
   ("int", some "int"),
   ("short", some "smallint"),
   ("byte", some "tinyint"),
   ("nonNegativeInteger", some "bigint"),
   ("unsignedLong", some "bigint"),
   ("unsignedInt", some "int"),
   ("unsignedShort", some "smallint"),
   ("unsignedByte", some "tinyint"),
   ("positiveInteger", some "bigint")]

/-- Embedding of `SDict.get(item)`: a missing key raises `KeyError`, which is caught and
becomes `None`; a present key whose stored value is `None` reaches
`None % self`, an uncaught `TypeError`; a present string value is formatted
against the dict, which is the identity for the `%`-free values stored. -/
def sdictGet (entries : List (String × Option String)) (item : String) :
    Except String (Option String) :=
  match lookupAssoc entries item with
  | none => .ok none
  | some none => .error "TypeError: unsupported operand type for %: NoneType and dict"
  | some (some v) => .ok (some v)

/-- Every string value stored in `DEFX2SQLSERVER` is free of `%`, so the
`% self` formatting step of `SDict` is the identity on it. -/
theorem defx2sqlserver_values_percent_free :
    ∀ p ∈ DEFX2SQLSERVER, ∀ v, p.2 = some v → ('%' ∈ v.data) = False := by
  decide

/-- Claim C7: looking up any of the unsupported built-in categories does not
return an absent result — it raises an uncaught `TypeError`, because the
stored `None` value reaches `None % self` before `get`'s `KeyError` handler
can intervene. Each lookup is present-with-`None` in the registry, and the
call crashes instead of resolving to "absent" (while a genuinely missing key
does return absent, and a supported key returns its type). -/
theorem sdict_unsupported_categories_crash :
    sdictGet DEFX2SQLSERVER "QName" =
        .error "TypeError: unsupported operand type for %: NoneType and dict" ∧
    sdictGet DEFX2SQLSERVER "NOTATION" =
        .error "TypeError: unsupported operand type for %: NoneType and dict" ∧
    sdictGet DEFX2SQLSERVER "NMTOKEN" =
        .error "TypeError: unsupported operand type for %: NoneType and dict" ∧
    sdictGet DEFX2SQLSERVER "NMTOKENS" =
        .error "TypeError: unsupported operand type for %: NoneType and dict" ∧
    sdictGet DEFX2SQLSERVER "ID" =
        .error "TypeError: unsupported operand type for %: NoneType and dict" ∧
    sdictGet DEFX2SQLSERVER "IDREF" =
        .error "TypeError: unsupported operand type for %: NoneType and dict" ∧
    sdictGet DEFX2SQLSERVER "IDREFS" =
        .error "TypeError: unsupported operand type for %: NoneType and dict" ∧
    sdictGet DEFX2SQLSERVER "ENTITY" =
        .error "TypeError: unsupported operand type for %: NoneType and dict" ∧
    sdictGet DEFX2SQLSERVER "ENTITIES" =
        .error "TypeError: unsupported operand type for %: NoneType and dict" ∧
    lookupAssoc DEFX2SQLSERVER "QName" = some none ∧
    sdictGet DEFX2SQLSERVER "NoSuchType" = .ok none ∧
    sdictGet DEFX2SQLSERVER "long" = .ok (some "bigint") :=
  ⟨rfl, rfl, rfl, rfl, rfl, rfl, rfl, rfl, rfl, rfl, rfl, rfl⟩

/-! Part: XSD elements, cardinality, and nullability (claims C1 and C8) -/

/-- The attributes of an XSD element that the core reads, each `none` when
the attribute is absent. -/
structure XmlEl where
  name : Option String
  typeAttr : Option String
  refAttr : Option String
  minOccursA : Option String
  maxOccursA : Option String
  nillableA : Option String
deriving DecidableEq

/-- Python `s.isdigit()` (ASCII digits, nonempty). -/
def pyIsDigit (l : List Char) : Bool :=
  !(l.isEmpty) && l.all (fun c => c.isDigit)

/-- Numeric value of an ASCII digit string. -/
def digitsToNat (l : List Char) : Nat :=
  l.foldl (fun acc c => acc * 10 + (c.toNat - '0'.toNat)) 0

/-- Python `int(s)` on attribute text, for an optional minus sign followed
by digits. `none` models the `ValueError` that `int` raises on any other
input; the claims' theorems restrict to parseable attributes. -/
def pyIntOpt (s : String) : Option Int :=
  match s.data with
  | '-' :: rest => if pyIsDigit rest then some (-(digitsToNat rest : Int)) else none
  | l => if pyIsDigit l then some ((digitsToNat l : Int)) else none

/-- Total version of `pyIntOpt`; `0` stands in for the unreachable
`ValueError` case. -/
def pyInt (s : String) : Int :=
  (pyIntOpt s).getD 0

/-- Python truthiness of an optional string: `None` and `""` are falsy. -/
def pyTruthy (o : Option String) : Bool :=
  match o with
  | none => false
  | some s => !(s = "")

/-- Embedding of `get_cardinality`: deduce "min..max" from `minOccurs` and
`maxOccurs` (defaults "1"), with `"unbounded"` rendered as `*`. -/
def get_cardinality (el : XmlEl) : String :=
  let min_occurs : Int := pyInt (el.minOccursA.getD "1")
  let max_occurs_raw : String := el.maxOccursA.getD "1"
  let unbounded : Bool := max_occurs_raw = "unbounded"
  if min_occurs = 1 ∧ unbounded then "1..*"
  else if min_occurs = 0 ∧ ¬ unbounded ∧ pyInt max_occurs_raw = 1 then "0..1"
  else
    toString min_occurs ++ ".."
      ++ (if unbounded then "*" else toString (pyInt max_occurs_raw))

/-- Python two-character split `s.split('..')`, leftmost non-overlapping. -/
def splitDD : List Char → List (List Char)
  | [] => [[]]
  | [c] => [[c]]
  | c1 :: c2 :: rest =>
    if c1 = '.' ∧ c2 = '.' then [] :: splitDD rest
    else
      match splitDD (c2 :: rest) with
      | h :: t => (c1 :: h) :: t
      | [] => [[c1]]

/-- Embedding of `cardinality_right_is_n`: the right side of "min..max" is
`*` or an integer greater than one. (The source indexes `split('..')[1]`,
which presupposes the ".." separator; our cardinalities always carry it.) -/
def cardinality_right_is_n (cardinality : String) : Bool :=
  match splitDD cardinality.data with
  | _ :: s1 :: _ => (s1 = ['*'] : Bool) || (pyIsDigit s1 && digitsToNat s1 > 1)
  | _ => false

/-- Embedding of `generate_str_counter_choice`. -/
def generate_str_counter_choice (counter_choice : Nat) : String :=
  if counter_choice > 0 then
    "/*counter_choice=" ++ toString counter_choice ++ "*/"
  else ""

/-- Embedding of `get_nullable_attribute`: `minOccurs = 0` or
`nillable = "true"` (case-insensitive) makes the column NULL, otherwise
NOT NULL. -/
def get_nullable_attribute (el : XmlEl) (col_definition : String) : String :=
  let min_occurs : Int := pyInt (el.minOccursA.getD "1")
  let nillable : Bool := pyLower (el.nillableA.getD "false") = "true"
  if min_occurs = 0 ∨ nillable then col_definition ++ " NULL"
  else col_definition ++ " NOT NULL"

/-- Embedding of `get_nullable_attribute_from_col_definition`: inside a
choice group the column is forced NULL and tagged with the choice counter;
outside, the occurrence/nillability analysis decides. -/
def get_nullable_attribute_from_col_definition (counter_choice : Nat)
    (el : XmlEl) (col_definition : String) : String :=
  if counter_choice > 0 then
    col_definition ++ " NULL" ++ generate_str_counter_choice counter_choice
  else
    get_nullable_attribute el col_definition

theorem string_append_right_injective (a b c : String) :
    a ++ b = a ++ c → b = c := by
  intro h
  have hd : (a ++ b).data = (a ++ c).data := by rw [h]
  rw [str_data_append, str_data_append] at hd
  have h2 := List.append_cancel_left hd
  cases b; cases c
  exact congrArg String.mk h2

/-- Claim C8: outside a choice group the produced column definition is
marked NULL exactly when the lower occurrence bound is 0 or the element is
explicitly nillable, and NOT NULL otherwise; inside a choice group
(`counter_choice > 0`) it is always NULL and additionally tagged with that
choice group's identifier, regardless of the occurrence attributes. -/
theorem nullability_of_col_definition (counter_choice : Nat) (el : XmlEl)
    (colDef : String)
    (hmin : (pyIntOpt (el.minOccursA.getD "1")).isSome = true) :
    (counter_choice = 0 →
      ((get_nullable_attribute_from_col_definition counter_choice el colDef
          = colDef ++ " NULL") ↔
        (pyInt (el.minOccursA.getD "1") = 0 ∨
          pyLower (el.nillableA.getD "false") = "true")) ∧
      ((get_nullable_attribute_from_col_definition counter_choice el colDef
          = colDef ++ " NOT NULL") ↔
        ¬ (pyInt (el.minOccursA.getD "1") = 0 ∨
          pyLower (el.nillableA.getD "false") = "true"))) ∧
    (counter_choice > 0 →
      get_nullable_attribute_from_col_definition counter_choice el colDef
        = colDef ++ " NULL" ++ "/*counter_choice=" ++ toString counter_choice
            ++ "*/") := by
  constructor
  · intro hc0
    subst hc0
    unfold get_nullable_attribute_from_col_definition get_nullable_attribute
    simp only [gt_iff_lt, Nat.lt_irrefl, if_false, decide_eq_true_eq]
    by_cases hcond : pyInt (el.minOccursA.getD "1") = 0 ∨
        pyLower (el.nillableA.getD "false") = "true"
    · rw [if_pos hcond]
      constructor
      · constructor
        · intro _; exact hcond
        · intro _; rfl
      · constructor
        · intro heq
          exfalso
          have : (" NULL" : String) = " NOT NULL" :=
            string_append_right_injective colDef _ _ heq
          simp at this
        · intro hn; exact absurd hcond hn
    · rw [if_neg hcond]
      constructor
      · constructor
        · intro heq
          exfalso
          have : (" NOT NULL" : String) = " NULL" :=
            string_append_right_injective colDef _ _ heq
          simp at this
        · intro hx; exact absurd hx hcond
      · constructor
        · intro _; exact hcond
        · intro _; rfl
  · intro hpos
    unfold get_nullable_attribute_from_col_definition generate_str_counter_choice
    rw [if_pos hpos, if_pos hpos]
    rw [← String.append_assoc, ← String.append_assoc]

/-- Witness for C8: a concrete optional element outside a choice, and the
same element inside choice group 2. -/
theorem nullability_of_col_definition_witness :
    (pyIntOpt ((⟨some "Addr", some "string", none, some "0", some "1", none⟩ :
        XmlEl).minOccursA.getD "1")).isSome = true ∧
    (get_nullable_attribute_from_col_definition 0
        ⟨some "Addr", some "string", none, some "0", some "1", none⟩
        "Addr nvarchar(max)" = "Addr nvarchar(max)" ++ " NULL" ↔
      (pyInt (((⟨some "Addr", some "string", none, some "0", some "1", none⟩ :
          XmlEl)).minOccursA.getD "1") = 0 ∨
        pyLower (((⟨some "Addr", some "string", none, some "0", some "1", none⟩ :
          XmlEl)).nillableA.getD "false") = "true")) ∧
    get_nullable_attribute_from_col_definition 2
        ⟨some "Addr", some "string", none, some "0", some "1", none⟩
        "Addr nvarchar(max)"
      = "Addr nvarchar(max)" ++ " NULL" ++ "/*counter_choice=" ++ toString (2 : Nat)
          ++ "*/" :=
  ⟨by decide,
   ((nullability_of_col_definition 0
      ⟨some "Addr", some "string", none, some "0", some "1", none⟩
      "Addr nvarchar(max)" (by decide)).1 rfl).1,
   (nullability_of_col_definition 2
      ⟨some "Addr", some "string", none, some "0", some "1", none⟩
      "Addr nvarchar(max)" (by decide)).2 (by decide)⟩

/-! Part: Column-string splitting: Python `cols.split(', ')` -/

/-- Python `s.split(', ')`: leftmost, non-overlapping occurrences of the
two-character separator. -/
def splitCS : List Char → List (List Char)
  | [] => [[]]
  | [c] => [[c]]
  | c1 :: c2 :: rest =>
    if c1 = ',' ∧ c2 = ' ' then [] :: splitCS rest
    else
      match splitCS (c2 :: rest) with
      | h :: t => (c1 :: h) :: t
      | [] => [[c1]]

/-- Whether a character list contains the separator `", "`. -/
def hasSepCS : List Char → Bool
  | [] => false
  | [_] => false
  | c1 :: c2 :: rest => (c1 = ',' && c2 = ' ') || hasSepCS (c2 :: rest)

theorem splitCS_ne_nil (l : List Char) : splitCS l ≠ [] := by
  match l with
  | [] => simp [splitCS]
  | [c] => simp [splitCS]
  | c1 :: c2 :: rest =>
    unfold splitCS
    by_cases h : c1 = ',' ∧ c2 = ' '
    · simp [h]
    · rw [if_neg h]
      rcases hs : splitCS (c2 :: rest) with _ | ⟨h1, t1⟩ <;> simp

theorem splitCS_no_sep (l : List Char) (h : hasSepCS l = false) :
    splitCS l = [l] := by
  match l with
  | [] => rfl
  | [c] => rfl
  | c1 :: c2 :: rest =>
    unfold hasSepCS at h
    simp only [Bool.or_eq_false_iff, Bool.and_eq_false_iff] at h
    unfold splitCS
    have hne : ¬ (c1 = ',' ∧ c2 = ' ') := by
      intro hc
      rcases h.1 with h1 | h2
      · simp [hc.1] at h1
      · simp [hc.2] at h2
    rw [if_neg hne]
    rw [splitCS_no_sep (c2 :: rest) h.2]

theorem splitCS_cons2 (c1 c2 : Char) (rest : List Char) :
    splitCS (c1 :: c2 :: rest) =
      if c1 = ',' ∧ c2 = ' ' then [] :: splitCS rest
      else
        match splitCS (c2 :: rest) with
        | h :: t => (c1 :: h) :: t
        | [] => [[c1]] := rfl

theorem splitCS_append (a b : List Char) (ha : hasSepCS a = false) :
    splitCS (a ++ ',' :: ' ' :: b) = a :: splitCS b := by
  match a with
  | [] =>
    show splitCS (',' :: ' ' :: b) = [] :: splitCS b
    rw [splitCS_cons2]
    simp
  | [c] =>
    have hc : ¬ (c = ',' ∧ ',' = ' ') := by rintro ⟨_, h⟩; simp at h
    show splitCS (c :: ',' :: ' ' :: b) = [c] :: splitCS b
    rw [splitCS_cons2, if_neg hc]
    have hstep : splitCS (',' :: ' ' :: b) = [] :: splitCS b := by
      rw [splitCS_cons2]; simp
    rw [hstep]
  | c1 :: c2 :: rest =>
    unfold hasSepCS at ha
    simp only [Bool.or_eq_false_iff, Bool.and_eq_false_iff] at ha
    have hne : ¬ (c1 = ',' ∧ c2 = ' ') := by
      intro hc
      rcases ha.1 with h1 | h2
      · simp [hc.1] at h1
      · simp [hc.2] at h2
    have ih := splitCS_append (c2 :: rest) b ha.2
    show splitCS (c1 :: c2 :: (rest ++ ',' :: ' ' :: b)) = (c1 :: c2 :: rest) :: splitCS b
    rw [splitCS_cons2, if_neg hne]
    rw [show c2 :: (rest ++ ',' :: ' ' :: b) = (c2 :: rest) ++ ',' :: ' ' :: b from rfl,
        ih]

/-- Python `cols.split(', ')` at the `String` level. -/
def pySplitCS (s : String) : List String :=
  (splitCS s.data).map (fun l => ⟨l⟩)

/-! Part: The table/column accumulator (claims C4 and C9)

`TABLE_COLUMNS` maps a normalized table name to the Python set of its
column-definition strings; `HASH_TABLE_TABLES_GENERATED` records which
tables have been generated. -/

structure TState where
  tableColumns : String → Option (Finset String)
  tablesGenerated : String → Bool

/-- The completely empty accumulator state. -/
def TState.empty : TState :=
  ⟨fun _ => none, fun _ => false⟩

/-- Embedding of `create_primary_key`. -/
def create_primary_key (nsDict : NsDict) (table_name : String) (ns : String) :
    String :=
  sql_normalize nsDict (table_name ++ "Id") ns ++ " bigint PRIMARY KEY NOT NULL"

/-- Embedding of `create_table_in_sql_sentence`: synthesize the primary key,
split the incoming column text on `", "`, union with any existing column
set for the normalized table name, and mark the table as generated. -/
def create_table_in_sql_sentence (nsDict : NsDict) (cols : String)
    (table_name : String) (ns : String) (st : TState) : TState :=
  let normalized_table_id := create_primary_key nsDict table_name ns
  let normalized_table_name := sql_normalize nsDict table_name ns
  let new_cols : List String :=
    normalized_table_id ::
      (if pyLstrip cols ≠ "" then pySplitCS cols else [])
  let newSet : Finset String := new_cols.toFinset
  let tc' : String → Option (Finset String) :=
    match st.tableColumns normalized_table_name with
    | some existing =>
      fun t => if t = normalized_table_name then some (existing ∪ newSet)
               else st.tableColumns t
    | none =>
      fun t => if t = normalized_table_name then some newSet
               else st.tableColumns t
  ⟨tc', fun t => if t = normalized_table_name then true else st.tablesGenerated t⟩

theorem TState.ext_custom (a b : TState)
    (h1 : a.tableColumns = b.tableColumns)
    (h2 : a.tablesGenerated = b.tablesGenerated) : a = b := by
  cases a; cases b; cases h1; cases h2; rfl

/-- The committed table's resulting column set: previous set (empty when the
table was absent) unioned with the primary key and the split column text. -/
theorem create_table_tableColumns_at_key (nsDict : NsDict)
    (cols table_name ns : String) (st : TState) :
    (create_table_in_sql_sentence nsDict cols table_name ns st).tableColumns
        (sql_normalize nsDict table_name ns)
      = some (((st.tableColumns (sql_normalize nsDict table_name ns)).getD ∅)
          ∪ (create_primary_key nsDict table_name ns ::
              (if pyLstrip cols ≠ "" then pySplitCS cols else [])).toFinset) := by
  simp only [create_table_in_sql_sentence]
  rcases hx : st.tableColumns (sql_normalize nsDict table_name ns) with _ | existing
  · simp
  · simp

/-- Tables other than the committed one are untouched. -/
theorem create_table_tableColumns_other (nsDict : NsDict)
    (cols table_name ns : String) (st : TState) (t : String)
    (ht : t ≠ sql_normalize nsDict table_name ns) :
    (create_table_in_sql_sentence nsDict cols table_name ns st).tableColumns t
      = st.tableColumns t := by
  simp only [create_table_in_sql_sentence]
  rcases hx : st.tableColumns (sql_normalize nsDict table_name ns) with _ | existing
  · simp [ht]
  · simp [ht]

theorem create_table_tablesGenerated (nsDict : NsDict)
    (cols table_name ns : String) (st : TState) (t : String) :
    (create_table_in_sql_sentence nsDict cols table_name ns st).tablesGenerated t
      = if t = sql_normalize nsDict table_name ns then true
        else st.tablesGenerated t := by
  simp only [create_table_in_sql_sentence]

/-- Claim C4: committing the same column text for the same table twice
leaves exactly the state reached by committing it once — the union with an
already-present identical column set changes nothing, so duplicate column
definitions collapse and re-invocation is idempotent. -/
theorem create_table_in_sql_sentence_idempotent (nsDict : NsDict)
    (cols table_name ns : String) (st : TState) :
    create_table_in_sql_sentence nsDict cols table_name ns
        (create_table_in_sql_sentence nsDict cols table_name ns st)
      = create_table_in_sql_sentence nsDict cols table_name ns st := by
  apply TState.ext_custom
  · funext t
    by_cases ht : t = sql_normalize nsDict table_name ns
    · subst ht
      rw [create_table_tableColumns_at_key, create_table_tableColumns_at_key]
      simp [Finset.union_assoc]
    · rw [create_table_tableColumns_other _ _ _ _ _ _ ht,
          create_table_tableColumns_other _ _ _ _ _ _ ht]
  · funext t
    rw [create_table_tablesGenerated, create_table_tablesGenerated]
    by_cases ht : t = sql_normalize nsDict table_name ns <;> simp [ht]

/-! Part: The synthesized primary key (claim C9) -/

theorem sql_normalize_empty_of_dropWhile_nil (nsDict : NsDict) (tn ns : String)
    (hd : tn.data.dropWhile isPySpace = []) :
    sql_normalize nsDict tn ns = "" := by
  unfold sql_normalize pyLstrip pyReplaceChar
  simp [hd]

theorem splitColonOnce_append (x y : List Char) :
    splitColonOnce (x ++ y) =
      match splitColonOnce x with
      | some p => some (p.1, p.2 ++ y)
      | none => (splitColonOnce y).map (fun p => (x ++ p.1, p.2)) := by
  induction x with
  | nil =>
    simp only [List.nil_append]
    show splitColonOnce y = (splitColonOnce y).map (fun p => (p.1, p.2))
    rcases h : splitColonOnce y with _ | p
    · rfl
    · simp
  | cons c rest ih =>
    by_cases hc : c = ':'
    · simp [splitColonOnce, hc]
    · rcases h : splitColonOnce rest with _ | p
      · rcases h2 : splitColonOnce y with _ | q
        · simp [splitColonOnce, hc, ih, h, h2]
        · simp [splitColonOnce, hc, ih, h, h2]
      · simp [splitColonOnce, hc, ih, h]

theorem splitColonOnce_Id : splitColonOnce ['I', 'd'] = none := by decide

theorem mk_append (l m : List Char) : (⟨l⟩ : String) ++ ⟨m⟩ = ⟨l ++ m⟩ := rfl

theorem mk_append_Id (l : List Char) :
    (⟨l ++ ['I', 'd']⟩ : String) = ⟨l⟩ ++ "Id" := by
  rw [show ("Id" : String) = ⟨['I', 'd']⟩ from rfl, mk_append]

/-- The prefix step `process_prefix` commutes with appending the colon-free suffix "Id". -/
theorem process_prefix_py_append_Id (M : List Char) (nsDict : NsDict)
    (ns : String) :
    process_prefix_py ⟨M ++ ['I', 'd']⟩ nsDict ns
      = process_prefix_py ⟨M⟩ nsDict ns ++ "Id" := by
  unfold process_prefix_py
  rw [show (⟨M ++ ['I', 'd']⟩ : String).data = M ++ ['I', 'd'] from rfl,
      show (⟨M⟩ : String).data = M from rfl,
      splitColonOnce_append M ['I', 'd'], splitColonOnce_Id]
  rcases h : splitColonOnce M with _ | p
  · show stripColons ((lookupAssoc nsDict ns).getD "") ++ "_"
          ++ (⟨M ++ ['I', 'd']⟩ : String)
        = stripColons ((lookupAssoc nsDict ns).getD "") ++ "_"
          ++ (⟨M⟩ : String) ++ "Id"
    rw [mk_append_Id, ← String.append_assoc]
  · show (if (⟨p.1⟩ : String) ++ ":" ∈ nsDict.map Prod.snd then
            (⟨p.1⟩ : String) ++ "_" ++ (⟨p.2 ++ ['I', 'd']⟩ : String)
          else stripColons ((lookupAssoc nsDict ns).getD "") ++ "_"
            ++ (⟨p.2 ++ ['I', 'd']⟩ : String))
        = (if (⟨p.1⟩ : String) ++ ":" ∈ nsDict.map Prod.snd then
            (⟨p.1⟩ : String) ++ "_" ++ (⟨p.2⟩ : String)
          else stripColons ((lookupAssoc nsDict ns).getD "") ++ "_"
            ++ (⟨p.2⟩ : String)) ++ "Id"
    by_cases hin : (⟨p.1⟩ : String) ++ ":" ∈ nsDict.map Prod.snd
    · rw [if_pos hin, if_pos hin, mk_append_Id, ← String.append_assoc]
    · rw [if_neg hin, if_neg hin, mk_append_Id, ← String.append_assoc]

/-- Unfolding of `sql_normalize`, with its three substitutions left unfused. -/
theorem sql_normalize_def_unfold (nsDict : NsDict) (x ns : String) :
    sql_normalize nsDict x ns =
      (if nsDict.length > 1 ∧ pyLstrip ns ≠ ""
          ∧ pyLstrip (pyReplaceChar (pyReplaceChar (pyReplaceChar (pyLstrip x)
              '-' '_') '.' '_') ' ' '_') ≠ "" then
        process_prefix_py (pyReplaceChar (pyReplaceChar (pyReplaceChar
          (pyLstrip x) '-' '_') '.' '_') ' ' '_') nsDict ns
      else pyReplaceChar (pyReplaceChar (pyReplaceChar (pyLstrip x) '-' '_')
        '.' '_') ' ' '_') := rfl

theorem s4_eq_map_normChar (x : String) :
    pyReplaceChar (pyReplaceChar (pyReplaceChar (pyLstrip x) '-' '_') '.' '_')
        ' ' '_'
      = ⟨(x.data.dropWhile isPySpace).map normChar⟩ := by
  unfold pyReplaceChar pyLstrip
  simp only [List.map_map]
  rfl

/-- Rewriting of `sql_normalize` with the character pipeline fused to `normChar`. -/
theorem sql_normalize_pipeline (nsDict : NsDict) (x ns : String) :
    sql_normalize nsDict x ns =
      (if nsDict.length > 1 ∧ pyLstrip ns ≠ ""
          ∧ pyLstrip ⟨(x.data.dropWhile isPySpace).map normChar⟩ ≠ "" then
        process_prefix_py ⟨(x.data.dropWhile isPySpace).map normChar⟩ nsDict ns
      else ⟨(x.data.dropWhile isPySpace).map normChar⟩) := by
  rw [sql_normalize_def_unfold, s4_eq_map_normChar]

/-- Appending "Id" before normalizing equals normalizing and then appending
"Id", whenever the name does not normalize to the empty string. -/
theorem sql_normalize_append_Id (nsDict : NsDict) (tn ns : String)
    (h : sql_normalize nsDict tn ns ≠ "") :
    sql_normalize nsDict (tn ++ "Id") ns = sql_normalize nsDict tn ns ++ "Id" := by
  have hL : tn.data.dropWhile isPySpace ≠ [] := fun hnil =>
    h (sql_normalize_empty_of_dropWhile_nil nsDict tn ns hnil)
  have hMne : ((tn.data.dropWhile isPySpace).map normChar) ≠ [] := by
    intro hnil
    apply hL
    have hlen := congrArg List.length hnil
    simp only [List.length_map, List.length_nil] at hlen
    exact List.length_eq_zero.mp hlen
  have hdropId : ((tn ++ "Id").data.dropWhile isPySpace)
      = tn.data.dropWhile isPySpace ++ ['I', 'd'] := by
    rw [str_data_append tn "Id"]
    rw [show ("Id" : String).data = ['I', 'd'] from rfl]
    rw [List.dropWhile_append]
    simp [List.isEmpty_iff, hL]
  have hmapId : (((tn ++ "Id").data.dropWhile isPySpace).map normChar)
      = (tn.data.dropWhile isPySpace).map normChar ++ ['I', 'd'] := by
    rw [hdropId, List.map_append]
    rfl
  have hMdrop : ((tn.data.dropWhile isPySpace).map normChar).dropWhile isPySpace
      = (tn.data.dropWhile isPySpace).map normChar :=
    dropWhile_map_normChar_dropWhile tn.data
  have hMIddrop : (((tn.data.dropWhile isPySpace).map normChar)
        ++ ['I', 'd']).dropWhile isPySpace
      = ((tn.data.dropWhile isPySpace).map normChar) ++ ['I', 'd'] := by
    rw [List.dropWhile_append, hMdrop]
    simp [List.isEmpty_iff, hMne]
  have hpyM : pyLstrip ⟨(tn.data.dropWhile isPySpace).map normChar⟩
      = ⟨(tn.data.dropWhile isPySpace).map normChar⟩ := congrArg String.mk hMdrop
  have hpyMId : pyLstrip ⟨((tn.data.dropWhile isPySpace).map normChar)
        ++ ['I', 'd']⟩
      = ⟨((tn.data.dropWhile isPySpace).map normChar) ++ ['I', 'd']⟩ :=
    congrArg String.mk hMIddrop
  have hMneStr : (⟨(tn.data.dropWhile isPySpace).map normChar⟩ : String) ≠ "" := by
    intro hc
    apply hMne
    simpa using congrArg String.data hc
  have hMIdneStr : (⟨((tn.data.dropWhile isPySpace).map normChar)
      ++ ['I', 'd']⟩ : String) ≠ "" := by
    intro hc
    have h2 := congrArg String.data hc
    simp at h2
  rw [sql_normalize_pipeline nsDict (tn ++ "Id") ns,
      sql_normalize_pipeline nsDict tn ns]
  rw [hmapId, hpyM, hpyMId]
  by_cases hD : nsDict.length > 1 ∧ pyLstrip ns ≠ ""
  · rw [if_pos ⟨hD.1, hD.2, hMIdneStr⟩, if_pos ⟨hD.1, hD.2, hMneStr⟩]
    exact process_prefix_py_append_Id _ nsDict ns
  · rw [if_neg (fun hc => hD ⟨hc.1, hc.2.1⟩),
        if_neg (fun hc => hD ⟨hc.1, hc.2.1⟩)]
    exact mk_append_Id _

/-- Every registered table holds the synthesized primary-key column for its
own normalized name, in the exact textual form the source emits. -/
def AccumPkInvariant (st : TState) : Prop :=
  ∀ T s, st.tableColumns T = some s →
    (T ++ "Id bigint PRIMARY KEY NOT NULL") ∈ s

theorem create_primary_key_shape (nsDict : NsDict) (tn ns : String)
    (h : sql_normalize nsDict tn ns ≠ "") :
    create_primary_key nsDict tn ns
      = sql_normalize nsDict tn ns ++ "Id bigint PRIMARY KEY NOT NULL" := by
  unfold create_primary_key
  rw [sql_normalize_append_Id nsDict tn ns h, String.append_assoc]
  rfl

/-- Claim C9: committing any column text for any table whose name does not
normalize to the empty string preserves the invariant that every registered
table contains `<Table>Id bigint PRIMARY KEY NOT NULL` for its own
normalized name, and establishes it for the committed table — with columns,
with the empty column list, and across repeated commits alike. -/
theorem commit_preserves_pk_invariant (nsDict : NsDict)
    (cols table_name ns : String) (st : TState)
    (hInv : AccumPkInvariant st)
    (hNe : sql_normalize nsDict table_name ns ≠ "") :
    AccumPkInvariant (create_table_in_sql_sentence nsDict cols table_name ns st)
      ∧ ∃ s, (create_table_in_sql_sentence nsDict cols table_name ns
            st).tableColumns (sql_normalize nsDict table_name ns) = some s ∧
          (sql_normalize nsDict table_name ns
            ++ "Id bigint PRIMARY KEY NOT NULL") ∈ s := by
  have hkey := create_table_tableColumns_at_key nsDict cols table_name ns st
  have hpk : create_primary_key nsDict table_name ns
      ∈ ((st.tableColumns (sql_normalize nsDict table_name ns)).getD ∅
          ∪ (create_primary_key nsDict table_name ns ::
              (if pyLstrip cols ≠ "" then pySplitCS cols else [])).toFinset) := by
    apply Finset.mem_union_right
    simp
  constructor
  · intro T s hs
    by_cases hT : T = sql_normalize nsDict table_name ns
    · subst hT
      rw [hkey] at hs
      cases hs
      rw [← create_primary_key_shape nsDict table_name ns hNe]
      exact hpk
    · rw [create_table_tableColumns_other _ _ _ _ _ _ hT] at hs
      exact hInv T s hs
  · refine ⟨_, hkey, ?_⟩
    rw [← create_primary_key_shape nsDict table_name ns hNe]
    exact hpk

/-- Witness for C9: committing table "Person" with one column into the empty
accumulator. -/
theorem commit_preserves_pk_invariant_witness :
    AccumPkInvariant TState.empty ∧
      sql_normalize [("u1", "xs:")] "Person" "u1" ≠ "" ∧
      (AccumPkInvariant (create_table_in_sql_sentence [("u1", "xs:")]
          "Name nvarchar(max) NOT NULL" "Person" "u1" TState.empty)
        ∧ ∃ s, (create_table_in_sql_sentence [("u1", "xs:")]
              "Name nvarchar(max) NOT NULL" "Person" "u1"
              TState.empty).tableColumns
                (sql_normalize [("u1", "xs:")] "Person" "u1") = some s ∧
            (sql_normalize [("u1", "xs:")] "Person" "u1"
              ++ "Id bigint PRIMARY KEY NOT NULL") ∈ s) :=
  have hInv : AccumPkInvariant TState.empty := by
    intro T s hs
    simp [TState.empty] at hs
  have hNe : sql_normalize [("u1", "xs:")] "Person" "u1" ≠ "" := by decide
  ⟨hInv, hNe,
   commit_preserves_pk_invariant [("u1", "xs:")] "Name nvarchar(max) NOT NULL"
     "Person" "u1" TState.empty hInv hNe⟩

/-! Part: Relationship records and foreign-key direction inference (claim C1) -/

/-- The `dict_relationships` map: key `"<parentTable>;<foreignKeyName>"`, value a list
of `(referencedTable, cardinality)` pairs. -/
def RelDict := String → Option (List (String × String))

/-- The empty relationship dictionary. -/
def RelDict.empty : RelDict := fun _ => none

/-- Embedding of `get_foreign_key_name`: `"FK_<parentTable>_<field>"`. -/
def get_foreign_key_name (field_fk_name parent_table_fk : String) : String :=
  "FK_" ++ parent_table_fk ++ "_" ++ field_fk_name

/-- Embedding of `get_parent_table_name`: the normalized parent name, or the
empty string for a `None` parent. -/
def get_parent_table_name (nsDict : NsDict) (parent : Option String)
    (ns : String) : String :=
  match parent with
  | none => ""
  | some p => sql_normalize nsDict p ns

/-- Embedding of `remove_relationship_dict_relationships`: drop the entry
keyed `"<parentTable>;<foreignKeyName>"` when present. -/
def remove_relationship_dict_relationships (d : RelDict)
    (parent_table foreign_key_name : String) : RelDict :=
  fun k => if k = parent_table ++ ";" ++ foreign_key_name then none else d k

/-- Embedding of `add_relationship_dict_relationships`: write the entry when
the key is absent or replacement was requested. -/
def add_relationship_dict_relationships (d : RelDict)
    (parent_table foreign_key_name table_reference_name cardinality : String)
    (replace_previous_relationship : Bool) : RelDict :=
  let key := parent_table ++ ";" ++ foreign_key_name
  if (d key).isNone || replace_previous_relationship then
    fun k => if k = key then some [(table_reference_name, cardinality)] else d k
  else d

/-- Python truthiness plus `lstrip` emptiness of the `cols` accumulator:
`not cols or cols.lstrip() == ''`. -/
def colsFalsy (cols : Option String) : Bool :=
  match cols with
  | none => true
  | some s => (s = "" : Bool) || (pyLstrip s = "" : Bool)

/-- The inverse foreign-key column built in the "many" branch of
`create_fk_field`: `new_col_name + ' bigint'` with the nullability suffix,
where `new_col_name = parent_table_fk + 'Id' + '_' + str(0)`. -/
def fk_inverse_col_def (el : XmlEl) (counter_choice : Nat)
    (parent_table_fk : String) : String :=
  get_nullable_attribute_from_col_definition counter_choice el
    (parent_table_fk ++ "Id" ++ "_" ++ toString (0 : Nat) ++ " bigint")

/-- The CONSTRAINT fragment built in the "many" branch of `create_fk_field`:
it references the *parent* table from inside the referenced table. -/
def fk_inverse_constraint (parent_table_fk foreign_key_name_update : String) :
    String :=
  "CONSTRAINT " ++ foreign_key_name_update ++ " FOREIGN KEY ("
    ++ (parent_table_fk ++ "Id" ++ "_" ++ toString (0 : Nat))
    ++ ") REFERENCES " ++ parent_table_fk ++ "(" ++ (parent_table_fk ++ "Id")
    ++ ")"

/-- Embedding of `create_fk_field`. The state threads `dict_relationships`
and the table accumulator; the returned string is the updated `cols`.
When the right side of the cardinality is "many" the constraint text is
committed to the *referenced* table and points back at the parent; otherwise
it is appended to the running `cols` of the referencing side. (In the source,
a `None` parent reaching `create_primary_key(parent, ns)` would raise
`TypeError`; the `getD ""` below is only ever exercised with a present
parent, as in the claims.) -/
def create_fk_field (nsDict : NsDict) (el : XmlEl) (cols : Option String)
    (parent : Option String) (field_fk_name table_reference_name : String)
    (counter_choice : Nat) (d : RelDict) (ns : String) (st : TState) :
    String × RelDict × TState :=
  let fk_field_normalized := sql_normalize nsDict (field_fk_name ++ "Id") ns
  let parent_table_fk := get_parent_table_name nsDict parent ns
  let table_reference_name_fk_normalized :=
    sql_normalize nsDict table_reference_name ns
  let foreign_key_name := get_foreign_key_name fk_field_normalized parent_table_fk
  let cardinality := get_cardinality el
  if cardinality_right_is_n cardinality then
    let foreign_key_name_update :=
      get_foreign_key_name field_fk_name parent_table_fk
    let d1 := remove_relationship_dict_relationships d parent_table_fk
      foreign_key_name
    let d2 := add_relationship_dict_relationships d1 parent_table_fk
      foreign_key_name_update table_reference_name_fk_normalized cardinality true
    let cols_update := fk_inverse_col_def el counter_choice parent_table_fk
      ++ ", " ++ fk_inverse_constraint parent_table_fk foreign_key_name_update
    let st1 := create_table_in_sql_sentence nsDict cols_update
      table_reference_name ns st
    let colsOut :=
      if colsFalsy cols then create_primary_key nsDict (parent.getD "") ns
      else cols.getD ""
    (colsOut, d2, st1)
  else
    let d1 := add_relationship_dict_relationships d parent_table_fk
      foreign_key_name table_reference_name_fk_normalized cardinality false
    let new_col_definition := fk_field_normalized ++ " bigint"
    let new_col_definition :=
      get_nullable_attribute_from_col_definition counter_choice el
        new_col_definition
    let colsBase := if colsFalsy cols then "" else cols.getD ""
    let comma_space := if colsFalsy cols then "" else ", "
    let colsOut := colsBase ++ comma_space ++ new_col_definition
    let colsOut := colsOut ++ ", CONSTRAINT " ++ foreign_key_name
      ++ " FOREIGN KEY (" ++ fk_field_normalized ++ ") REFERENCES "
      ++ table_reference_name_fk_normalized ++ "("
      ++ (table_reference_name_fk_normalized ++ "Id") ++ ")"
    let st1 := create_table_in_sql_sentence nsDict "" table_reference_name ns st
    (colsOut, d1, st1)

theorem pySplitCS_append_pair (a b : String) (ha : hasSepCS a.data = false)
    (hb : hasSepCS b.data = false) :
    pySplitCS (a ++ ", " ++ b) = [a, b] := by
  unfold pySplitCS
  rw [show (a ++ ", " ++ b).data = a.data ++ ',' :: ' ' :: b.data from by
    rw [str_data_append, str_data_append, List.append_assoc]
    rfl]
  rw [splitCS_append a.data b.data ha, splitCS_no_sep b.data hb]
  rfl

theorem remove_rel_at_key (d : RelDict) (P fk : String) :
    remove_relationship_dict_relationships d P fk (P ++ ";" ++ fk) = none := by
  unfold remove_relationship_dict_relationships
  simp

theorem add_rel_true_at_key (d : RelDict) (P fk R c : String) :
    add_relationship_dict_relationships d P fk R c true (P ++ ";" ++ fk)
      = some [(R, c)] := by
  unfold add_relationship_dict_relationships
  simp

theorem add_rel_true_other (d : RelDict) (P fk R c k : String)
    (hk : k ≠ P ++ ";" ++ fk) :
    add_relationship_dict_relationships d P fk R c true k = d k := by
  unfold add_relationship_dict_relationships
  simp [hk]

/-- Claim C1: when the right-hand cardinality is "many", `create_fk_field`
commits the inverse foreign-key column and its CONSTRAINT fragment (which
points back at the parent) to the *referenced* table's column set, leaves
the parent table's column set untouched, removes the previously recorded
relationship entry for the parent's old foreign-key name, and installs
exactly one replacement entry under the updated name — never a duplicate. -/
theorem fk_many_side_resolution (nsDict : NsDict) (el : XmlEl)
    (cols : Option String) (p field_fk_name table_reference_name : String)
    (counter_choice : Nat) (d : RelDict) (ns : String) (st : TState)
    (hMany : cardinality_right_is_n (get_cardinality el) = true)
    (hSep1 : hasSepCS (fk_inverse_col_def el counter_choice
        (sql_normalize nsDict p ns)).data = false)
    (hSep2 : hasSepCS (fk_inverse_constraint (sql_normalize nsDict p ns)
        (get_foreign_key_name field_fk_name (sql_normalize nsDict p ns))).data
      = false)
    (hGuard : pyLstrip (fk_inverse_col_def el counter_choice
        (sql_normalize nsDict p ns) ++ ", "
        ++ fk_inverse_constraint (sql_normalize nsDict p ns)
          (get_foreign_key_name field_fk_name (sql_normalize nsDict p ns)))
      ≠ "")
    (hPR : sql_normalize nsDict p ns ≠ sql_normalize nsDict table_reference_name ns)
    (hKeys : get_foreign_key_name (sql_normalize nsDict (field_fk_name ++ "Id") ns)
        (sql_normalize nsDict p ns)
      ≠ get_foreign_key_name field_fk_name (sql_normalize nsDict p ns)) :
    (∃ s, (create_fk_field nsDict el cols (some p) field_fk_name
          table_reference_name counter_choice d ns st).2.2.tableColumns
            (sql_normalize nsDict table_reference_name ns) = some s ∧
        fk_inverse_constraint (sql_normalize nsDict p ns)
          (get_foreign_key_name field_fk_name (sql_normalize nsDict p ns)) ∈ s ∧
        fk_inverse_col_def el counter_choice (sql_normalize nsDict p ns) ∈ s) ∧
    (create_fk_field nsDict el cols (some p) field_fk_name table_reference_name
        counter_choice d ns st).2.2.tableColumns (sql_normalize nsDict p ns)
      = st.tableColumns (sql_normalize nsDict p ns) ∧
    (create_fk_field nsDict el cols (some p) field_fk_name table_reference_name
        counter_choice d ns st).2.1
      (sql_normalize nsDict p ns ++ ";"
        ++ get_foreign_key_name (sql_normalize nsDict (field_fk_name ++ "Id") ns)
          (sql_normalize nsDict p ns)) = none ∧
    (create_fk_field nsDict el cols (some p) field_fk_name table_reference_name
        counter_choice d ns st).2.1
      (sql_normalize nsDict p ns ++ ";"
        ++ get_foreign_key_name field_fk_name (sql_normalize nsDict p ns))
      = some [(sql_normalize nsDict table_reference_name ns,
          get_cardinality el)] := by
  have heq : create_fk_field nsDict el cols (some p) field_fk_name
      table_reference_name counter_choice d ns st
    = ((if colsFalsy cols then create_primary_key nsDict ((some p).getD "") ns
        else cols.getD ""),
       add_relationship_dict_relationships
         (remove_relationship_dict_relationships d (sql_normalize nsDict p ns)
           (get_foreign_key_name (sql_normalize nsDict (field_fk_name ++ "Id") ns)
             (sql_normalize nsDict p ns)))
         (sql_normalize nsDict p ns)
         (get_foreign_key_name field_fk_name (sql_normalize nsDict p ns))
         (sql_normalize nsDict table_reference_name ns) (get_cardinality el)
         true,
       create_table_in_sql_sentence nsDict
         (fk_inverse_col_def el counter_choice (sql_normalize nsDict p ns)
           ++ ", " ++ fk_inverse_constraint (sql_normalize nsDict p ns)
             (get_foreign_key_name field_fk_name (sql_normalize nsDict p ns)))
         table_reference_name ns st) := by
    simp only [create_fk_field, get_parent_table_name]
    rw [if_pos hMany]
  rw [heq]
  have hkne : sql_normalize nsDict p ns ++ ";"
        ++ get_foreign_key_name (sql_normalize nsDict (field_fk_name ++ "Id") ns)
          (sql_normalize nsDict p ns)
      ≠ sql_normalize nsDict p ns ++ ";"
        ++ get_foreign_key_name field_fk_name (sql_normalize nsDict p ns) := by
    intro hc
    apply hKeys
    rw [String.append_assoc, String.append_assoc] at hc
    have := string_append_right_injective _ _ _ hc
    exact string_append_right_injective _ _ _ this
  refine ⟨?_, ?_, ?_, ?_⟩
  · have hkey := create_table_tableColumns_at_key nsDict
      (fk_inverse_col_def el counter_choice (sql_normalize nsDict p ns)
        ++ ", " ++ fk_inverse_constraint (sql_normalize nsDict p ns)
          (get_foreign_key_name field_fk_name (sql_normalize nsDict p ns)))
      table_reference_name ns st
    rw [if_pos hGuard, pySplitCS_append_pair _ _ hSep1 hSep2] at hkey
    exact ⟨_, hkey, by simp, by simp⟩
  · exact create_table_tableColumns_other nsDict _ table_reference_name ns st _
      hPR
  · dsimp only
    rw [add_rel_true_other _ _ _ _ _ _ hkne, remove_rel_at_key]
  · dsimp only
    rw [add_rel_true_at_key]

/-- Witness for C1: element `Item` with `minOccurs=0, maxOccurs=unbounded`
referenced from parent `Order`. -/
theorem fk_many_side_resolution_witness :
    cardinality_right_is_n (get_cardinality
        ⟨some "Item", some "ItemType", none, some "0", some "unbounded", none⟩)
      = true ∧
    sql_normalize [("u1", "xs:")] "Order" "u1"
      ≠ sql_normalize [("u1", "xs:")] "Item" "u1" ∧
    ((∃ s, (create_fk_field [("u1", "xs:")]
          ⟨some "Item", some "ItemType", none, some "0", some "unbounded", none⟩
          none (some "Order") "Item" "Item" 0 RelDict.empty "u1"
          TState.empty).2.2.tableColumns
            (sql_normalize [("u1", "xs:")] "Item" "u1") = some s ∧
        fk_inverse_constraint (sql_normalize [("u1", "xs:")] "Order" "u1")
          (get_foreign_key_name "Item"
            (sql_normalize [("u1", "xs:")] "Order" "u1")) ∈ s ∧
        fk_inverse_col_def
          ⟨some "Item", some "ItemType", none, some "0", some "unbounded", none⟩
          0 (sql_normalize [("u1", "xs:")] "Order" "u1") ∈ s) ∧
      (create_fk_field [("u1", "xs:")]
          ⟨some "Item", some "ItemType", none, some "0", some "unbounded", none⟩
          none (some "Order") "Item" "Item" 0 RelDict.empty "u1"
          TState.empty).2.2.tableColumns
            (sql_normalize [("u1", "xs:")] "Order" "u1")
        = TState.empty.tableColumns (sql_normalize [("u1", "xs:")] "Order" "u1") ∧
      (create_fk_field [("u1", "xs:")]
          ⟨some "Item", some "ItemType", none, some "0", some "unbounded", none⟩
          none (some "Order") "Item" "Item" 0 RelDict.empty "u1"
          TState.empty).2.1
        (sql_normalize [("u1", "xs:")] "Order" "u1" ++ ";"
          ++ get_foreign_key_name
            (sql_normalize [("u1", "xs:")] ("Item" ++ "Id") "u1")
            (sql_normalize [("u1", "xs:")] "Order" "u1")) = none ∧
      (create_fk_field [("u1", "xs:")]
          ⟨some "Item", some "ItemType", none, some "0", some "unbounded", none⟩
          none (some "Order") "Item" "Item" 0 RelDict.empty "u1"
          TState.empty).2.1
        (sql_normalize [("u1", "xs:")] "Order" "u1" ++ ";"
          ++ get_foreign_key_name "Item"
            (sql_normalize [("u1", "xs:")] "Order" "u1"))
        = some [(sql_normalize [("u1", "xs:")] "Item" "u1",
            get_cardinality ⟨some "Item", some "ItemType", none, some "0",
              some "unbounded", none⟩)]) :=
  ⟨by decide, by decide,
   fk_many_side_resolution [("u1", "xs:")]
     ⟨some "Item", some "ItemType", none, some "0", some "unbounded", none⟩
     none "Order" "Item" "Item" 0 RelDict.empty "u1" TState.empty
     (by decide) (by decide) (by decide) (by decide) (by decide) (by decide)⟩

/-! Part: `process_element` and the unresolved-type policy (claim C5) -/

/-- Embedding of `find_complex_type`: the document's `complexType`
declarations are pre-collected into a list; look one up by name.
A `None` name finds nothing. -/
def find_complex_type (root : List XmlEl) (type_name : Option String) :
    Option XmlEl :=
  match type_name with
  | none => none
  | some t => root.find? (fun ct => ct.name == some t)

/-- Embedding of `is_complex_type`. -/
def is_complex_type (root : List XmlEl) (type_name : Option String) : Bool :=
  (find_complex_type root type_name).isSome

/-- Python `s.replace(old, new)` for multi-character `old`: leftmost,
non-overlapping. The fuel argument (number of characters still allowed to
be consumed, at least the list length at every call) keeps the recursion
structural. An empty pattern leaves the string unchanged here (the source
only reaches this call with nonempty namespace prefixes). -/
def replaceSubFuel (p r : List Char) : Nat → List Char → List Char
  | _, [] => []
  | 0, l => l
  | n + 1, x :: xs =>
    if p ≠ [] ∧ p.isPrefixOf (x :: xs) then
      r ++ replaceSubFuel p r n ((x :: xs).drop p.length)
    else
      x :: replaceSubFuel p r n xs

def pyReplaceSubstr (s pat rep : String) : String :=
  ⟨replaceSubFuel pat.data rep.data s.data.length s.data⟩

/-- Python string conversion of an optional value: `None` prints as "None"
inside `%`-formatting. -/
def pyStr (o : Option String) : String :=
  match o with
  | none => "None"
  | some s => s

/-- Python `parent is not None and parent.lstrip() != ''`. -/
def parentOk (parent : Option String) : Bool :=
  match parent with
  | none => false
  | some p => !(pyLstrip p = "")

/-- Embedding of `process_element`. `USER_TYPES` values may themselves be
`None` (recorded by `build_user_types` for unmapped base types), hence the
`Option (Option String)` lookup flattened by `Option.join`. Exceptions
(`InvalidXMLType`, and the `TypeError` escaping `SDict.get`) become
`Except.error`; the normal result is the updated `cols` (possibly `none`,
exactly when the source falls off the end and returns Python `None`)
together with the threaded relationship dictionary and table accumulator. -/
def process_element (nsDict : NsDict) (userTypes : List (String × Option String))
    (root : List XmlEl) (el : XmlEl) (parent : Option String)
    (fail normalize : Bool) (counter_choice : Nat) (cols : Option String)
    (ns : String) (d : RelDict) (st : TState) :
    Except String (Option String × RelDict × TState) :=
  let ns_table_name := sql_normalize nsDict (el.name.getD "") ns
  if st.tablesGenerated ns_table_name ∧ parent ≠ none ∧ parent ≠ some "" then
    let r := create_fk_field nsDict el cols parent (el.name.getD "")
      (el.name.getD "") counter_choice d ns st
    .ok (some r.1, r.2.1, r.2.2)
  else if parentOk parent ∧ is_complex_type root el.name then
    let r := create_fk_field nsDict el cols parent (el.name.getD "")
      (el.name.getD "") counter_choice d ns st
    .ok (some r.1, r.2.1, r.2.2)
  else
    let thisType : String :=
      if pyTruthy el.typeAttr then el.typeAttr.getD ""
      else if pyTruthy el.refAttr then el.refAttr.getD ""
      else "string"
    if el.refAttr ≠ none then
      let fname := if pyTruthy el.name then el.name.getD "" else el.refAttr.getD ""
      let r := create_fk_field nsDict el cols parent fname thisType
        counter_choice d ns st
      .ok (some r.1, r.2.1, r.2.2)
    else
      let k := pyReplaceSubstr thisType ((lookupAssoc nsDict ns).getD "") ""
      match sdictGet DEFX2SQLSERVER k with
      | .error e => .error e
      | .ok dv =>
        let uv : Option String :=
          (lookupAssoc userTypes (sql_normalize nsDict k ns)).join
        let sql_type : Option String :=
          if pyTruthy dv then dv else if pyTruthy uv then uv else none
        if ¬ pyTruthy sql_type ∧ fail then
          .error ("InvalidXMLType: " ++ ((lookupAssoc nsDict ns).getD "")
            ++ thisType ++ " is an invalid XSD type.")
        else if pyTruthy sql_type then
          let step : Except String (Option String) :=
            if sql_type ∈ DEFX2SQLSERVER.map Prod.snd then .ok sql_type
            else sdictGet DEFX2SQLSERVER (sql_type.getD "")
          match step with
          | .error e => .error e
          | .ok sql_type2 =>
            if ¬ pyTruthy sql_type2 ∧ fail then
              .error ("InvalidXMLType: " ++ ((lookupAssoc nsDict ns).getD "")
                ++ thisType ++ " is an invalid Database Schema type.")
            else
              let col_name : Option String :=
                if pyTruthy el.name then el.name else el.refAttr
              match col_name with
              | none => .ok (cols, d, st)
              | some cn =>
                let cn := if normalize then sql_normalize nsDict cn ns else cn
                let col_definition := cn ++ " " ++ pyStr sql_type2
                let col_definition :=
                  get_nullable_attribute_from_col_definition counter_choice el
                    col_definition
                let newCols :=
                  if ¬ pyTruthy cols then col_definition
                  else cols.getD "" ++ ", " ++ col_definition
                .ok (some newCols, d, st)
        else
          if parentOk parent ∧ is_complex_type root (some thisType) then
            let r := create_fk_field nsDict el cols parent (el.name.getD "")
              thisType counter_choice d ns st
            .ok (some r.1, r.2.1, r.2.2)
          else
            .ok (none, d, st)

/-- Claim C5 evaluated on the code: an element whose declared type
`UnknownType` has no mapping in either registry, with one column already
accumulated for the level. In strict mode the run aborts with
`InvalidXMLType`; in lenient mode there is no crash, but the function does
not merely omit the unresolved column — it returns `None`, discarding the
previously accumulated column text for the structural level instead of
leaving it unchanged. -/
theorem unresolved_type_strict_and_lenient :
    process_element [("u1", "xs:")] [] []
        ⟨some "Extra", some "UnknownType", none, none, none, none⟩
        (some "Person") true true 0 (some "a int NOT NULL") "u1"
        RelDict.empty TState.empty
      = .error "InvalidXMLType: xs:UnknownType is an invalid XSD type." ∧
    process_element [("u1", "xs:")] [] []
        ⟨some "Extra", some "UnknownType", none, none, none, none⟩
        (some "Person") false true 0 (some "a int NOT NULL") "u1"
        RelDict.empty TState.empty
      = .ok (none, RelDict.empty, TState.empty) := by
  constructor
  · rfl
  · rfl

/-! Part: The dependency graph and topological ordering (claim C2)

`networkx.DiGraph` becomes a node list plus an edge list;
`nx.topological_sort` (third-party code) is modelled by Kahn's algorithm:
repeatedly emit a node with no incoming edge among the remaining edges,
removing the node and its incident edges — exactly the contract the source
relies on at lines 2076–2078 (drop order = topological order, create order
= its reverse). -/

structure PyDigraph where
  nodes : List String
  edges : List (String × String)
deriving DecidableEq

instance : Inhabited PyDigraph := ⟨⟨[], []⟩⟩

/-- One Kahn elimination round per unit of fuel. -/
def kahnAux : Nat → List String → List (String × String) → Option (List String)
  | 0, ns, _ => if ns.isEmpty then some [] else none
  | fuel + 1, ns, es =>
    if ns.isEmpty then some []
    else
      match ns.find? (fun n => !(es.any (fun e => e.2 == n))) with
      | none => none
      | some n =>
        (kahnAux fuel (ns.erase n)
            (es.filter (fun e => !(e.1 == n) && !(e.2 == n)))).map
          (fun ord => n :: ord)

/-- Model of `nx.topological_sort`: `none` when no topological order exists. -/
def kahn (g : PyDigraph) : Option (List String) :=
  kahnAux g.nodes.length g.nodes g.edges

/-- Embedding of the ordering step of
`generate_sql_statements_in_topological_order`: the drop order is the
topological order of the (already cycle-broken) graph and the create order
is exactly its reverse. -/
def topological_sql_orders (g : PyDigraph) : Option (List String × List String) :=
  match kahn g with
  | none => none
  | some drop_order => some (drop_order, drop_order.reverse)

/-- Position of the first occurrence of `x` in `l` (length when absent). -/
def posIn (l : List String) (x : String) : Nat :=
  match l with
  | [] => 0
  | y :: t => if y = x then 0 else posIn t x + 1

theorem posIn_lt_length (l : List String) (x : String) (h : x ∈ l) :
    posIn l x < l.length := by
  induction l with
  | nil => cases h
  | cons y t ih =>
    by_cases hy : y = x
    · simp [posIn, hy]
    · have hx : x ∈ t := by
        rcases List.mem_cons.mp h with h' | h'
        · exact absurd h'.symm hy
        · exact h'
      simp only [posIn, if_neg hy, List.length_cons]
      exact Nat.succ_lt_succ (ih hx)

theorem posIn_append_left (l m : List String) (x : String) (h : x ∈ l) :
    posIn (l ++ m) x = posIn l x := by
  induction l with
  | nil => cases h
  | cons y t ih =>
    by_cases hy : y = x
    · simp [posIn, hy]
    · have hx : x ∈ t := by
        rcases List.mem_cons.mp h with h' | h'
        · exact absurd h'.symm hy
        · exact h'
      simp [posIn, hy, ih hx]

theorem posIn_append_right (l m : List String) (x : String) (h : x ∉ l) :
    posIn (l ++ m) x = l.length + posIn m x := by
  induction l with
  | nil => simp [posIn]
  | cons y t ih =>
    have hy : ¬ y = x := fun hc => h (by simp [hc])
    have ht : x ∉ t := fun hc => h (by simp [hc])
    simp only [List.cons_append, posIn, if_neg hy, List.length_cons,
      List.append_eq]
    rw [ih ht]
    omega

theorem posIn_reverse_flip (l : List String) (hnd : l.Nodup) (a b : String)
    (ha : a ∈ l) (hb : b ∈ l) (h : posIn l a < posIn l b) :
    posIn l.reverse b < posIn l.reverse a := by
  induction l with
  | nil => cases ha
  | cons x t ih =>
    rw [List.reverse_cons]
    rcases List.nodup_cons.mp hnd with ⟨hxt, hndt⟩
    by_cases hax : a = x
    · subst hax
      have hba : b ≠ a := by
        intro hc
        subst hc
        exact Nat.lt_irrefl _ h
      have hbt : b ∈ t := by
        rcases List.mem_cons.mp hb with h' | h'
        · exact absurd h' hba
        · exact h'
      have hbrev : b ∈ t.reverse := List.mem_reverse.mpr hbt
      have harev : a ∉ t.reverse := fun hc => hxt (List.mem_reverse.mp hc)
      rw [posIn_append_left _ _ _ hbrev, posIn_append_right _ _ _ harev]
      have h1 : posIn t.reverse b < t.reverse.length :=
        posIn_lt_length _ _ hbrev
      omega
    · by_cases hbx : b = x
      · subst hbx
        simp [posIn] at h
      · have hat : a ∈ t := by
          rcases List.mem_cons.mp ha with h' | h'
          · exact absurd h' hax
          · exact h'
        have hbt : b ∈ t := by
          rcases List.mem_cons.mp hb with h' | h'
          · exact absurd h' hbx
          · exact h'
        have hxa : ¬ x = a := fun hc => hax hc.symm
        have hxb : ¬ x = b := fun hc => hbx hc.symm
        have ht : posIn t a < posIn t b := by
          simp only [posIn, if_neg hxa, if_neg hxb] at h
          omega
        have hrec := ih hndt hat hbt ht
        rw [posIn_append_left _ _ _ (List.mem_reverse.mpr hbt),
            posIn_append_left _ _ _ (List.mem_reverse.mpr hat)]
        exact hrec

theorem kahnAux_mem (fuel : Nat) :
    ∀ (ns : List String) (es : List (String × String)) (ord : List String),
      kahnAux fuel ns es = some ord → ∀ x ∈ ns, x ∈ ord := by
  induction fuel with
  | zero =>
    intro ns es ord h x hx
    simp only [kahnAux] at h
    split at h
    · rename_i hns
      exact absurd hx (by simp [List.isEmpty_iff.mp hns])
    · cases h
  | succ fuel ih =>
    intro ns es ord h x hx
    simp only [kahnAux] at h
    split at h
    · rename_i hns
      exact absurd hx (by simp [List.isEmpty_iff.mp hns])
    · split at h
      · cases h
      · rename_i n hfind
        rcases Option.map_eq_some'.mp h with ⟨ord', hord', rfl⟩
        by_cases hxn : x = n
        · simp [hxn]
        · have hxe : x ∈ ns.erase n := List.mem_erase_of_ne hxn |>.mpr hx
          exact List.mem_cons_of_mem _ (ih _ _ _ hord' x hxe)

theorem kahnAux_subset (fuel : Nat) :
    ∀ (ns : List String) (es : List (String × String)) (ord : List String),
      kahnAux fuel ns es = some ord → ∀ x ∈ ord, x ∈ ns := by
  induction fuel with
  | zero =>
    intro ns es ord h x hx
    simp only [kahnAux] at h
    split at h
    · cases h; cases hx
    · cases h
  | succ fuel ih =>
    intro ns es ord h x hx
    simp only [kahnAux] at h
    split at h
    · cases h; cases hx
    · split at h
      · cases h
      · rename_i n hfind
        rcases Option.map_eq_some'.mp h with ⟨ord', hord', rfl⟩
        rcases List.mem_cons.mp hx with h' | h'
        · subst h'
          exact List.mem_of_find?_eq_some hfind
        · exact List.mem_of_mem_erase (ih _ _ _ hord' x h')

theorem kahnAux_nodup (fuel : Nat) :
    ∀ (ns : List String) (es : List (String × String)) (ord : List String),
      ns.Nodup → kahnAux fuel ns es = some ord → ord.Nodup := by
  induction fuel with
  | zero =>
    intro ns es ord hnd h
    simp only [kahnAux] at h
    split at h
    · cases h; exact List.nodup_nil
    · cases h
  | succ fuel ih =>
    intro ns es ord hnd h
    simp only [kahnAux] at h
    split at h
    · cases h; exact List.nodup_nil
    · split at h
      · cases h
      · rename_i n hfind
        rcases Option.map_eq_some'.mp h with ⟨ord', hord', rfl⟩
        refine List.nodup_cons.mpr ⟨?_, ih _ _ _ (hnd.erase n) hord'⟩
        intro hc
        exact hnd.not_mem_erase (kahnAux_subset fuel _ _ _ hord' n hc)

theorem kahnAux_order (fuel : Nat) :
    ∀ (ns : List String) (es : List (String × String)) (ord : List String),
      ns.Nodup → kahnAux fuel ns es = some ord →
      ∀ a b, (a, b) ∈ es → a ∈ ns → b ∈ ns →
        posIn ord a < posIn ord b := by
  induction fuel with
  | zero =>
    intro ns es ord hnd h a b hab ha hb
    simp only [kahnAux] at h
    split at h
    · rename_i hns
      exact absurd ha (by simp [List.isEmpty_iff.mp hns])
    · cases h
  | succ fuel ih =>
    intro ns es ord hnd h a b hab ha hb
    simp only [kahnAux] at h
    split at h
    · rename_i hns
      exact absurd ha (by simp [List.isEmpty_iff.mp hns])
    · split at h
      · cases h
      · rename_i n hfind
        rcases Option.map_eq_some'.mp h with ⟨ord', hord', rfl⟩
        have hpred := List.find?_some hfind
        have hnoin : ∀ e ∈ es, ¬ e.2 = n := by
          intro e he hc
          simp only [Bool.not_eq_true'] at hpred
          have := List.any_eq_false.mp hpred e he
          simp [hc] at this
        have hbn : b ≠ n := fun hc => hnoin (a, b) hab (by simpa using hc)
        have hnb : ¬ n = b := fun hc => hbn hc.symm
        by_cases han : a = n
        · subst han
          have h0 : posIn (a :: ord') a = 0 := by simp [posIn]
          have h1 : posIn (a :: ord') b = posIn ord' b + 1 := by
            have hab' : ¬ a = b := fun hc => hbn hc.symm
            simp [posIn, hab']
          rw [h0, h1]
          exact Nat.succ_pos _
        · have hna : ¬ n = a := fun hc => han hc.symm
          have hxe1 : a ∈ ns.erase n := (List.mem_erase_of_ne han).mpr ha
          have hxe2 : b ∈ ns.erase n := (List.mem_erase_of_ne hbn).mpr hb
          have hedge : (a, b) ∈ es.filter
              (fun e => !(e.1 == n) && !(e.2 == n)) := by
            refine List.mem_filter.mpr ⟨hab, ?_⟩
            simp [han, hbn]
          have hlt := ih _ _ _ (hnd.erase n) hord' a b hedge hxe1 hxe2
          have e1 : posIn (n :: ord') a = posIn ord' a + 1 := by
            simp [posIn, hna]
          have e2 : posIn (n :: ord') b = posIn ord' b + 1 := by
            simp [posIn, hnb]
          rw [e1, e2]
          omega

/-- Claim C2: in the final (cycle-broken) dependency graph, for every edge
A → B the drop order places A strictly before B, the create order places A
strictly after B, and the create order is exactly the reverse of the drop
order. -/
theorem topological_orders_respect_edges (g : PyDigraph)
    (dropO createO : List String)
    (hwf : ∀ e ∈ g.edges, e.1 ∈ g.nodes ∧ e.2 ∈ g.nodes)
    (hnd : g.nodes.Nodup)
    (h : topological_sql_orders g = some (dropO, createO)) :
    createO = dropO.reverse ∧
      ∀ e ∈ g.edges, posIn dropO e.1 < posIn dropO e.2 ∧
        posIn createO e.2 < posIn createO e.1 := by
  unfold topological_sql_orders at h
  rcases hk : kahn g with _ | ord
  · rw [hk] at h; cases h
  · rw [hk] at h
    simp only [Option.some.injEq, Prod.mk.injEq] at h
    obtain ⟨rfl, rfl⟩ := h
    unfold kahn at hk
    refine ⟨rfl, ?_⟩
    rintro ⟨a, b⟩ hab
    have h1 : posIn ord a < posIn ord b :=
      kahnAux_order _ _ _ _ hnd hk a b hab (hwf _ hab).1 (hwf _ hab).2
    have hnd' : ord.Nodup := kahnAux_nodup _ _ _ _ hnd hk
    have hao : a ∈ ord := kahnAux_mem _ _ _ _ hk a (hwf _ hab).1
    have hbo : b ∈ ord := kahnAux_mem _ _ _ _ hk b (hwf _ hab).2
    exact ⟨h1, posIn_reverse_flip ord hnd' a b hao hbo h1⟩

/-- Witness for C2 on the two-table graph `A → B`. -/
theorem topological_orders_respect_edges_witness :
    (∀ e ∈ (⟨["A", "B"], [("A", "B")]⟩ : PyDigraph).edges,
        e.1 ∈ (⟨["A", "B"], [("A", "B")]⟩ : PyDigraph).nodes ∧
        e.2 ∈ (⟨["A", "B"], [("A", "B")]⟩ : PyDigraph).nodes) ∧
    (⟨["A", "B"], [("A", "B")]⟩ : PyDigraph).nodes.Nodup ∧
    topological_sql_orders ⟨["A", "B"], [("A", "B")]⟩
      = some (["A", "B"], ["A", "B"].reverse) ∧
    (["A", "B"].reverse = ["A", "B"].reverse ∧
      ∀ e ∈ (⟨["A", "B"], [("A", "B")]⟩ : PyDigraph).edges,
        posIn ["A", "B"] e.1 < posIn ["A", "B"] e.2 ∧
        posIn ["A", "B"].reverse e.2 < posIn ["A", "B"].reverse e.1) :=
  ⟨by decide, by decide, by decide,
   topological_orders_respect_edges ⟨["A", "B"], [("A", "B")]⟩
     ["A", "B"] (["A", "B"].reverse) (by decide) (by decide) (by decide)⟩

/-! Part: Cycles, reachability, and `break_cycles` (claims C3 and C10) -/

/-- One directed edge step. -/
def EdgeRel (es : List (String × String)) (a b : String) : Prop :=
  (a, b) ∈ es

/-- Reachability along the edges (reflexive-transitive closure). -/
def Reach (es : List (String × String)) (a b : String) : Prop :=
  Relation.ReflTransGen (EdgeRel es) a b

/-- The graph has a directed cycle: some edge `(u, v)` whose target reaches
back to its source. -/
def hasCycle (g : PyDigraph) : Prop :=
  ∃ u v, (u, v) ∈ g.edges ∧ Reach g.edges v u

/-- Walks: `IsWalk es a l b` means `l` lists the successive vertices visited after `a`
on a walk from `a` to `b`; its length is the number of edges used. -/
def IsWalk (es : List (String × String)) : String → List String → String → Prop
  | a, [], b => a = b
  | a, v :: rest, b => (a, v) ∈ es ∧ IsWalk es v rest b

/-- Depth-bounded reachability, executable. -/
def reachableFuel (es : List (String × String)) :
    Nat → String → String → Bool
  | 0, a, b => a == b
  | n + 1, a, b =>
    a == b || es.any (fun e => e.1 == a && reachableFuel es n e.2 b)

theorem walk_snoc (es : List (String × String)) (a c b : String)
    (l : List String) (hw : IsWalk es a l c) (hcb : (c, b) ∈ es) :
    IsWalk es a (l ++ [b]) b := by
  induction l generalizing a with
  | nil =>
    cases hw
    exact ⟨hcb, rfl⟩
  | cons v rest ih =>
    exact ⟨hw.1, ih v hw.2⟩

theorem reach_iff_walk (es : List (String × String)) (a b : String) :
    Reach es a b ↔ ∃ l, IsWalk es a l b := by
  constructor
  · intro h
    induction h with
    | refl => exact ⟨[], rfl⟩
    | tail _ hcb ih =>
      rcases ih with ⟨l, hw⟩
      exact ⟨l ++ [_], walk_snoc es a _ _ l hw hcb⟩
  · rintro ⟨l, hw⟩
    induction l generalizing a with
    | nil => cases hw; exact Relation.ReflTransGen.refl
    | cons v rest ih =>
      exact Relation.ReflTransGen.head hw.1 (ih v hw.2)

theorem reachableFuel_iff (es : List (String × String)) (n : Nat) :
    ∀ a b, reachableFuel es n a b = true ↔
      ∃ l, l.length ≤ n ∧ IsWalk es a l b := by
  induction n with
  | zero =>
    intro a b
    constructor
    · intro h
      exact ⟨[], Nat.le_refl 0, by simpa [reachableFuel] using h⟩
    · rintro ⟨l, hlen, hw⟩
      have : l = [] := List.length_eq_zero.mp (Nat.le_zero.mp hlen)
      subst this
      simpa [reachableFuel] using hw
  | succ n ih =>
    intro a b
    constructor
    · intro h
      simp only [reachableFuel, Bool.or_eq_true, beq_iff_eq,
        List.any_eq_true, Bool.and_eq_true] at h
      rcases h with h | ⟨e, he, he1, hrec⟩
      · exact ⟨[], Nat.zero_le _, h⟩
      · rcases (ih e.2 b).mp hrec with ⟨l, hlen, hw⟩
        refine ⟨e.2 :: l, Nat.succ_le_succ hlen, ?_, hw⟩
        have : e = (a, e.2) := by
          rcases e with ⟨e1, e2⟩
          simp only [beq_iff_eq] at he1
          simp [he1]
        rwa [this] at he
    · rintro ⟨l, hlen, hw⟩
      match l, hw with
      | [], hw =>
        cases hw
        simp [reachableFuel]
      | v :: rest, hw =>
        simp only [reachableFuel, Bool.or_eq_true, beq_iff_eq,
          List.any_eq_true, Bool.and_eq_true]
        right
        refine ⟨(a, v), hw.1, by simp, ?_⟩
        exact (ih v b).mpr ⟨rest, Nat.le_of_succ_le_succ (by simpa using hlen),
          hw.2⟩

theorem walk_mem_targets (es : List (String × String)) (a b : String)
    (l : List String) (hw : IsWalk es a l b) :
    ∀ v ∈ l, v ∈ es.map Prod.snd := by
  induction l generalizing a with
  | nil => intro v hv; cases hv
  | cons u rest ih =>
    intro v hv
    rcases List.mem_cons.mp hv with h' | h'
    · subst h'
      exact List.mem_map.mpr ⟨(a, v), hw.1, rfl⟩
    · exact ih u hw.2 v h'

theorem walk_suffix (es : List (String × String)) (b y : String)
    (l1 l2 : List String) :
    ∀ x, IsWalk es x (l1 ++ y :: l2) b → IsWalk es y l2 b := by
  induction l1 with
  | nil =>
    intro x hw
    exact hw.2
  | cons u rest ih =>
    intro x hw
    exact ih u hw.2

theorem walk_to_nodup (es : List (String × String)) (b : String)
    (l : List String) :
    ∀ a, IsWalk es a l b →
      ∃ l', IsWalk es a l' b ∧ l'.Nodup ∧ l' ⊆ l := by
  induction l with
  | nil =>
    intro a hw
    exact ⟨[], hw, List.nodup_nil, List.Subset.refl _⟩
  | cons v rest ih =>
    intro a hw
    rcases ih v hw.2 with ⟨r', hw', hnd', hsub'⟩
    by_cases hv : v ∈ r'
    · rcases List.append_of_mem hv with ⟨r1, r2, rfl⟩
      have hw2 : IsWalk es v r2 b := walk_suffix es b v r1 r2 v hw'
      have hnd2 : (v :: r2).Nodup :=
        hnd'.sublist (List.sublist_append_right r1 (v :: r2))
      exact ⟨v :: r2, ⟨hw.1, hw2⟩, hnd2,
        fun x hx => by
          rcases List.mem_cons.mp hx with h' | h'
          · simp [h']
          · exact List.mem_cons_of_mem _ (hsub' (by simp [h']))⟩
    · exact ⟨v :: r', ⟨hw.1, hw'⟩, List.nodup_cons.mpr ⟨hv, hnd'⟩,
        fun x hx => by
          rcases List.mem_cons.mp hx with h' | h'
          · simp [h']
          · exact List.mem_cons_of_mem _ (hsub' h')⟩

theorem nodup_subset_length (l m : List String) (hnd : l.Nodup) (hsub : l ⊆ m) :
    l.length ≤ m.length := by
  have h1 : l.toFinset.card = l.length := List.toFinset_card_of_nodup hnd
  have h2 : l.toFinset ⊆ m.toFinset := by
    intro x hx
    exact List.mem_toFinset.mpr (hsub (List.mem_toFinset.mp hx))
  have h3 : m.toFinset.card ≤ m.length := List.toFinset_card_le m
  have h4 := Finset.card_le_card h2
  omega

/-- Completeness of the bounded search: semantic reachability is always
witnessed within `es.length` steps (a shortest walk repeats no vertex). -/
theorem reach_complete (es : List (String × String)) (a b : String)
    (h : Reach es a b) : reachableFuel es es.length a b = true := by
  rcases (reach_iff_walk es a b).mp h with ⟨l, hw⟩
  rcases walk_to_nodup es b l a hw with ⟨l', hw', hnd', _⟩
  have hsub : l' ⊆ es.map Prod.snd := fun v hv =>
    walk_mem_targets es a b l' hw' v hv
  have hlen : l'.length ≤ es.length := by
    have := nodup_subset_length l' (es.map Prod.snd) hnd' hsub
    simpa using this
  exact (reachableFuel_iff es es.length a b).mpr ⟨l', hlen, hw'⟩

theorem reachableFuel_sound (es : List (String × String)) (n : Nat)
    (a b : String) (h : reachableFuel es n a b = true) : Reach es a b := by
  rcases (reachableFuel_iff es n a b).mp h with ⟨l, _, hw⟩
  exact (reach_iff_walk es a b).mpr ⟨l, hw⟩

/-- Model of `nx.find_cycle` as used by `break_cycles`: the first edge that
lies on some cycle (its target reaches back to its source); `none` exactly
when the graph is acyclic. The removed edge in the source is the first edge
of the found cycle, which is likewise an edge on that cycle. -/
def findCycleEdge (g : PyDigraph) : Option (String × String) :=
  g.edges.find? (fun e => reachableFuel g.edges g.edges.length e.2 e.1)

/-- Python `graph_copy.remove_edge(*edge)`. -/
def remove_edge (g : PyDigraph) (e : String × String) : PyDigraph :=
  ⟨g.nodes, g.edges.erase e⟩

theorem findCycleEdge_none (g : PyDigraph) (h : findCycleEdge g = none) :
    ¬ hasCycle g := by
  rintro ⟨u, v, huv, hreach⟩
  have hfuel : reachableFuel g.edges g.edges.length v u = true :=
    reach_complete g.edges v u hreach
  have := List.find?_eq_none.mp h (u, v) huv
  simp only at this
  exact this hfuel

/-- Embedding of `break_cycles`: repeatedly find a cycle and remove one of
its edges until none remains, collecting the removed edges (one diagnostic
line is printed per removed edge in the source). The fuel argument makes the
recursion structural; `g.edges.length` units suffice because every round
removes one edge, which is exactly the termination argument of the source's
`while` loop. -/
def break_cycles_fuel : Nat → PyDigraph → PyDigraph × List (String × String)
  | 0, g => (g, [])
  | n + 1, g =>
    match findCycleEdge g with
    | none => (g, [])
    | some e =>
      let r := break_cycles_fuel n (remove_edge g e)
      (r.1, e :: r.2)

def break_cycles (g : PyDigraph) : PyDigraph × List (String × String) :=
  break_cycles_fuel g.edges.length g

theorem break_cycles_fuel_spec (n : Nat) :
    ∀ g : PyDigraph, g.edges.length ≤ n →
      ¬ hasCycle (break_cycles_fuel n g).1 ∧
      (∀ e ∈ (break_cycles_fuel n g).2, e ∈ g.edges) ∧
      (break_cycles_fuel n g).1.edges.length + (break_cycles_fuel n g).2.length
        = g.edges.length ∧
      (break_cycles_fuel n g).1.nodes = g.nodes := by
  induction n with
  | zero =>
    intro g hg
    have hnil : g.edges = [] := List.length_eq_zero.mp (Nat.le_zero.mp hg)
    refine ⟨?_, ?_, ?_, rfl⟩
    · rintro ⟨u, v, huv, -⟩
      rw [show (break_cycles_fuel 0 g).1 = g from rfl, hnil] at huv
      cases huv
    · intro e he
      cases he
    · simp [break_cycles_fuel]
  | succ n ih =>
    intro g hg
    rcases hfc : findCycleEdge g with _ | e
    · refine ⟨?_, ?_, ?_, ?_⟩
      · rw [show (break_cycles_fuel (n + 1) g).1
            = (match findCycleEdge g with
               | none => (g, ([] : List (String × String)))
               | some e => ((break_cycles_fuel n (remove_edge g e)).1,
                   e :: (break_cycles_fuel n (remove_edge g e)).2)).1 from rfl,
          hfc]
        exact findCycleEdge_none g hfc
      · intro e he
        simp only [break_cycles_fuel, hfc] at he
        cases he
      · simp [break_cycles_fuel, hfc]
      · simp [break_cycles_fuel, hfc]
    · have hmem : e ∈ g.edges := List.mem_of_find?_eq_some hfc
      have hlen : (remove_edge g e).edges.length ≤ n := by
        have h1 : (g.edges.erase e).length = g.edges.length - 1 :=
          List.length_erase_of_mem hmem
        have h2 : 0 < g.edges.length := List.length_pos.mpr
          (List.ne_nil_of_mem hmem)
        simp only [remove_edge]
        omega
      rcases ih (remove_edge g e) hlen with ⟨hcyc, hsub, hcount, hnodes⟩
      have hred : break_cycles_fuel (n + 1) g
          = ((break_cycles_fuel n (remove_edge g e)).1,
             e :: (break_cycles_fuel n (remove_edge g e)).2) := by
        simp [break_cycles_fuel, hfc]
      refine ⟨?_, ?_, ?_, ?_⟩
      · rw [hred]
        exact hcyc
      · intro x hx
        rw [hred] at hx
        rcases List.mem_cons.mp hx with h' | h'
        · subst h'
          exact hmem
        · exact List.erase_subset _ _ (hsub x h')
      · rw [hred]
        have h1 : (g.edges.erase e).length = g.edges.length - 1 :=
          List.length_erase_of_mem hmem
        have h2 : 0 < g.edges.length := List.length_pos.mpr
          (List.ne_nil_of_mem hmem)
        have h3 : (remove_edge g e).edges.length = g.edges.length - 1 := by
          simp only [remove_edge]
          exact h1
        simp only [List.length_cons]
        omega
      · rw [hred]
        exact hnodes

/-- Claim C3: `break_cycles` always terminates (it is a total function whose
fuel, the number of edges, bounds the loop because each round removes one
edge), returns an acyclic graph over the same nodes, and reports exactly the
removed edges — each one a former edge of the input — one diagnostic per
removed edge; nothing about minimality of the removed set is claimed. -/
theorem break_cycles_spec (g : PyDigraph) :
    ¬ hasCycle (break_cycles g).1 ∧
    (∀ e ∈ (break_cycles g).2, e ∈ g.edges) ∧
    (break_cycles g).1.edges.length + (break_cycles g).2.length
      = g.edges.length ∧
    (break_cycles g).1.nodes = g.nodes :=
  break_cycles_fuel_spec g.edges.length g (Nat.le_refl _)

/-- Witness for C3 on the mutually-referencing pair `X ⇄ Y`. -/
theorem break_cycles_spec_witness :
    ¬ hasCycle (break_cycles ⟨["X", "Y"], [("X", "Y"), ("Y", "X")]⟩).1 ∧
    (∀ e ∈ (break_cycles ⟨["X", "Y"], [("X", "Y"), ("Y", "X")]⟩).2,
        e ∈ (⟨["X", "Y"], [("X", "Y"), ("Y", "X")]⟩ : PyDigraph).edges) ∧
    (break_cycles ⟨["X", "Y"], [("X", "Y"), ("Y", "X")]⟩).1.edges.length
        + (break_cycles ⟨["X", "Y"], [("X", "Y"), ("Y", "X")]⟩).2.length
      = (⟨["X", "Y"], [("X", "Y"), ("Y", "X")]⟩ : PyDigraph).edges.length ∧
    (break_cycles ⟨["X", "Y"], [("X", "Y"), ("Y", "X")]⟩).1.nodes
      = (⟨["X", "Y"], [("X", "Y"), ("Y", "X")]⟩ : PyDigraph).nodes :=
  break_cycles_spec ⟨["X", "Y"], [("X", "Y"), ("Y", "X")]⟩

/-! Part: The frame property of `break_cycles` (claim C10)

To state that the Python function mutates only its private copy, the object
heap is made explicit: a store of graph objects addressed by index. The call
`break_cycles(graph)` first allocates `graph.copy()` at a fresh index, then
performs all edge removals on that copy, and returns the copy's index. -/

abbrev GraphStore := List PyDigraph

/-- The heap-level embedding of calling `break_cycles` on the object at
index `gid`: allocate the copy, run the edge-removal loop on it, return the
final store, the returned object's index, and the removed-edge diagnostics. -/
def break_cycles_call (store : GraphStore) (gid : Nat) :
    GraphStore × Nat × List (String × String) :=
  let g := store.getD gid default
  let copy_id := store.length
  let store1 := store ++ [g]
  let r := break_cycles g
  (store1.set copy_id r.1, copy_id, r.2)

theorem list_set_append_get {α : Type} (l : List α) (x y : α) :
    ((l ++ [x]).set l.length y).get? l.length = some y := by
  induction l with
  | nil => rfl
  | cons a t ih => simpa using ih

/-- Claim C10: the input graph object is completely unchanged by
`break_cycles` — the copy is allocated at a fresh index, all edge removals
hit only the copy, and the caller gets back the copy's index, which is
never the input's index. -/
theorem break_cycles_call_preserves_input (store : GraphStore) (gid : Nat)
    (h : gid < store.length) :
    (break_cycles_call store gid).1.get? gid = store.get? gid ∧
    (break_cycles_call store gid).2.1 ≠ gid ∧
    (break_cycles_call store gid).1.get? (break_cycles_call store gid).2.1
      = some (break_cycles (store.getD gid default)).1 := by
  have hne : store.length ≠ gid := fun hc => absurd h (by omega)
  refine ⟨?_, ?_, ?_⟩
  · show ((store ++ [store.getD gid default]).set store.length
        (break_cycles (store.getD gid default)).1).get? gid = store.get? gid
    rw [List.get?_set_ne _ _ hne]
    exact List.get?_append h
  · show store.length ≠ gid
    exact hne
  · show ((store ++ [store.getD gid default]).set store.length
        (break_cycles (store.getD gid default)).1).get? store.length
      = some (break_cycles (store.getD gid default)).1
    exact list_set_append_get store _ _

/-- Witness for C10: a one-object store holding the mutually-referencing
graph `X ⇄ Y`. -/
theorem break_cycles_call_preserves_input_witness :
    0 < ([(⟨["X", "Y"], [("X", "Y"), ("Y", "X")]⟩ : PyDigraph)] :
        GraphStore).length ∧
    ((break_cycles_call [⟨["X", "Y"], [("X", "Y"), ("Y", "X")]⟩] 0).1.get? 0
        = ([(⟨["X", "Y"], [("X", "Y"), ("Y", "X")]⟩ : PyDigraph)] :
            GraphStore).get? 0 ∧
      (break_cycles_call [⟨["X", "Y"], [("X", "Y"), ("Y", "X")]⟩] 0).2.1 ≠ 0 ∧
      (break_cycles_call [⟨["X", "Y"], [("X", "Y"), ("Y", "X")]⟩] 0).1.get?
          (break_cycles_call [⟨["X", "Y"], [("X", "Y"), ("Y", "X")]⟩] 0).2.1
        = some (break_cycles (([(⟨["X", "Y"], [("X", "Y"), ("Y", "X")]⟩ :
            PyDigraph)] : GraphStore).getD 0 default)).1) :=
  ⟨by decide,
   break_cycles_call_preserves_input [⟨["X", "Y"], [("X", "Y"), ("Y", "X")]⟩] 0
     (by decide)⟩
